import Mathlib

/-!
Verification development for the `zip-random-access` module (`src/lib/index.js`).

The module plans the byte layout of a ZIP archive virtually and serves
arbitrary byte ranges of it.  The shallow embedding below follows the source
file line by line:

* the `Zip` class state is the structure `Zip`;
* the constructor is `mkZip` (validation via `validateFiles`, then
  `calculateZipSize` when all file sizes are known — `Zip.constructor`,
  lines 30-72);
* `init` models `Zip.init` (lines 79-87);
* `getStream` models `Zip.getStream` (lines 167-187), `startNextFile` models
  `Zip._startNextFile` (lines 189-223) and `startOutput` models the
  `Zip._startOutput` stub (lines 225-227);
* the external ZIP format encoder (the `yazl` dependency) is out of scope per
  the specification ("treated as a correct, already-available ZIP-format
  encoder").  It is abstracted as the `Encoder` structure; `yazlEncoder` is a
  concrete instance modelled from the spec.

JavaScript dynamic values that matter to the validation code are modelled by
`JsValue` (numbers as `ℚ`, which covers the negative / non-integer rejects the
code distinguishes).  Thrown errors (`simple-invariant` asserts and
`TypeError`s) are modelled by `Except String`, carrying the message.
-/

namespace ZipRandomAccess

instance {ε α : Type} [DecidableEq ε] [DecidableEq α] : DecidableEq (Except ε α) := fun a b =>
  match a, b with
  | .ok x, .ok y =>
    if h : x = y then .isTrue (by rw [h])
    else .isFalse (fun hc => h (by injection hc))
  | .error x, .error y =>
    if h : x = y then .isTrue (by rw [h])
    else .isFalse (fun hc => h (by injection hc))
  | .ok _, .error _ => .isFalse (fun hc => by injection hc)
  | .error _, .ok _ => .isFalse (fun hc => by injection hc)

/-- A JavaScript value as far as the validation code inspects one: `null`,
`undefined`, a string, a number (modelled as `ℚ`; `NaN`/`±Infinity` behave
like any other non-integer for the `is-it-type` predicates used here), or a
boolean. -/
inductive JsValue where
  | null
  | undefined
  | str (s : String)
  | num (q : ℚ)
  | bool (b : Bool)
deriving DecidableEq

/-- A raw file descriptor as passed to the `Zip` constructor:
`{path, filename, size}` with arbitrary JavaScript values in each slot. -/
structure FileDesc where
  path : JsValue
  filename : JsValue
  size : JsValue
deriving DecidableEq

/-- `is-it-type`'s `isPositiveIntegerOrZero`: an integer `≥ 0`. -/
def isPositiveIntegerOrZero (q : ℚ) : Prop := q.den = 1 ∧ 0 ≤ q

/-- `is-it-type`'s `isPositiveInteger`: an integer `> 0`. -/
def isPositiveInteger (q : ℚ) : Prop := q.den = 1 ∧ 0 < q

instance (q : ℚ) : Decidable (isPositiveIntegerOrZero q) := by
  unfold isPositiveIntegerOrZero; infer_instance

instance (q : ℚ) : Decidable (isPositiveInteger q) := by
  unfold isPositiveInteger; infer_instance

/-- A conformed entry of `this._files` (constructor line 65):
`{path, filename, size, crc32Watcher, compressedSizeCounter}`.  The two
captured yazl stream objects are modelled by `Bool` flags recording whether
they are non-null (their content is never inspected by the module). -/
structure FileEntry where
  path : String
  filename : String
  size : Option Nat
  crc32Watcher : Bool
  compressedSizeCounter : Bool
deriving DecidableEq

/-- A captured output chunk of `this._chunks` (constructor line 38):
`{buff, file, offset}`.  Bytes are modelled as `Nat`s. -/
structure Chunk where
  buff : List Nat
  file : Option Nat
  offset : Nat
deriving DecidableEq

/-- An outstanding range request of `this._outputs` (line 176):
`{stream, offset, length, pos}`.  The `PassThrough` stream object carries no
model-relevant state (nothing is ever written to it by the module, see
`startOutput`), so only the numeric fields are kept. -/
structure Output where
  offset : Nat
  length : Nat
  pos : Nat
deriving DecidableEq

/-- The mutable state of a `Zip` instance.  `calcDone` is a ghost flag set
exactly when `_calculateZipSize` has run to completion; `zipAdded` is the list
of `(filename, size)` entries added so far to the persistent `this._zip`
encoder; `opened` is a ghost trace of the catalog indices whose read streams
have been opened by `addReadStream`, in order. -/
structure Zip where
  size : Option Nat
  files : List FileEntry
  chunks : List Chunk
  outputs : List Output
  currentFileIndex : Option Nat
  nextFileIndex : Nat
  currentSize : Nat
  zipAdded : List (String × Nat)
  calcDone : Bool
  opened : List Nat
deriving DecidableEq

/-- Abstraction of the external ZIP format encoder (the `yazl` dependency,
out of scope per the spec).  `finalSize` is the value `zip.end(cb)` passes to
its callback for a list of stored `(filename, size)` entries; `addEmits` is
the list of `(cursor, buffer)` writes `addReadStream` performs on the output
stream, given the entries already added and the new entry's filename and
size; `pipeCount` is the number of `pipe` calls the encoder chains on the
read stream passed to `addReadStream`. -/
structure Encoder where
  finalSize : List (String × Nat) → Nat
  addEmits : List (String × Nat) → String → Nat → List (Nat × List Nat)
  pipeCount : Nat

/-- Modelled from the spec: the external ZIP-format encoder is an
out-of-scope collaborator ("treated as a correct, already-available
ZIP-format encoder"), so its sizes follow the standard stored-entry layout
the spec names (local file header of `30 + nameLen` bytes, the data region,
a 16-byte trailing data descriptor, a `46 + nameLen`-byte central directory
record per entry, and the 22-byte end-of-central-directory record).  Header
byte values are out of scope and modelled as zero-filled buffers of the
correct length.  `addReadStream` emits exactly one buffer — the local file
header — at the current cursor, and chains 5 `pipe` calls. -/
def yazlEncoder : Encoder where
  finalSize es := 22 + (es.map (fun e => (30 + e.1.length) + e.2 + 16 + (46 + e.1.length))).sum
  addEmits prev fn _ :=
    [((prev.map (fun e => (30 + e.1.length) + e.2 + 16)).sum, List.replicate (30 + fn.length) 0)]
  pipeCount := 5

/-- Validation of one file descriptor (constructor lines 53-65).  `isObject`
holds by construction of `FileDesc`.  Returns the conformed entry together
with whether its size was known (the per-file contribution to
`allFileSizesKnown`).  The `size == null` loose equality of line 57 matches
both `null` and `undefined`. -/
def validateFile (f : FileDesc) : Except String (FileEntry × Bool) :=
  match f.path with
  | .str p =>
    match f.filename with
    | .str fn =>
      match f.size with
      | .null => .ok (⟨p, fn, none, false, false⟩, false)
      | .undefined => .ok (⟨p, fn, none, false, false⟩, false)
      | .num q =>
        if isPositiveIntegerOrZero q then .ok (⟨p, fn, some q.num.toNat, false, false⟩, true)
        else .error "file objects .size property must be an integer or null"
      | _ => .error "file objects .size property must be an integer or null"
    | _ => .error "file objects must have a string `filename` property"
  | _ => .error "file objects must have a string `path` property"

/-- The `files.map` of constructor lines 52-66: validate each descriptor in
order, stopping at the first failing assert; the second component is
`allFileSizesKnown`. -/
def validateFiles : List FileDesc → Except String (List FileEntry × Bool)
  | [] => .ok ([], true)
  | f :: fs => do
    let (e, known) ← validateFile f
    let (es, rest) ← validateFiles fs
    .ok (e :: es, known && rest)

/-- `Zip._calculateZipSize` (lines 93-103): run a dry pass of the encoder
over all entries (`compress: false`, declared sizes), let `zip.end` report
the final size, and assert it is truthy. -/
def calculateZipSize (enc : Encoder) (z : Zip) : Except String Zip :=
  let total := enc.finalSize (z.files.map (fun f => (f.filename, f.size.getD 0)))
  let z := { z with size := some total, calcDone := true }
  if total ≠ 0 then .ok z else .error "Failed to calculate size"

/-- The state of a `Zip` right after the field initialisation of constructor
lines 31-45 with the conformed entry list in place. -/
def mkZipBase (entries : List FileEntry) : Zip :=
  { size := none, files := entries, chunks := [], outputs := [],
    currentFileIndex := none, nextFileIndex := 0, currentSize := 0,
    zipAdded := [], calcDone := false, opened := [] }

/-- The `Zip` constructor (lines 30-72).  `isArray(files)` holds by
construction of the `List` argument.  State initialisation follows lines
31-45; validation lines 49-66; the size is computed immediately when all
file sizes are known (line 71). -/
def mkZip (enc : Encoder) (files : List FileDesc) : Except String Zip := do
  let (entries, allKnown) ← validateFiles files
  if allKnown then calculateZipSize enc (mkZipBase entries)
  else .ok (mkZipBase entries)

/-- JavaScript truthiness of `this.size` (`null` and `0` are falsy). -/
def sizeTruthy (o : Option Nat) : Prop := o.getD 0 ≠ 0

instance (o : Option Nat) : Decidable (sizeTruthy o) := by
  unfold sizeTruthy; infer_instance

/-- `Zip.init` (lines 79-87).  If `this.size` is truthy it returns at once.
Otherwise it executes `for (const file of this.files)` — but the class only
ever assigns `this._files`; `this.files` is `undefined`, so the iteration
throws a `TypeError` before any entry is statted.  The `statSize` oracle
(the `fs/promises` `stat` of line 83) is therefore never consulted. -/
def init (statSize : String → Nat) (z : Zip) : Except String Zip :=
  if sizeTruthy z.size then .ok z
  else
    let _ := statSize
    .error "TypeError: this.files is not iterable"

/-- `Zip._startOutput` (lines 225-227): the body is a `TODO` stub in the
source; the state is returned unchanged and nothing is written to the
output's stream. -/
def startOutput (z : Zip) (_o : Output) : Zip := z

/-- `Zip._startNextFile` (lines 189-223).  The `files.length ===
nextFileIndex` branch (line 190) is an empty `TODO`, so control falls
through; `currentFileIndex` is assigned (line 195) before `files[i]` is
read, and when that element is `undefined` the `file.filename` argument
evaluation of line 217 throws a `TypeError`.  Otherwise `addReadStream`
makes the encoder emit its buffers into `chunks` and chain `pipeCount`
`pipe` calls on the fake read stream (capturing `crc32Watcher` at pipe
index 0 and `compressedSizeCounter` at pipe index 3), after which the two
asserts of lines 218-219 run, and `currentSize` is set from the captured
local file header chunk (lines 221-222).  The `file.size` occurrence on
line 222 uses `getD 0` since JavaScript coerces `null` to `0` in `+`. -/
def startNextFile (enc : Encoder) (z : Zip) : Except String Unit × Zip :=
  let i := z.nextFileIndex
  let z := { z with currentFileIndex := some i }
  match z.files.get? i with
  | none => (.error "TypeError: Cannot read properties of undefined", z)
  | some file =>
    let emits := enc.addEmits z.zipAdded file.filename (file.size.getD 0)
    let numChunks := z.chunks.length
    let file' := { file with
      crc32Watcher := decide (1 ≤ enc.pipeCount),
      compressedSizeCounter := decide (4 ≤ enc.pipeCount) }
    let z := { z with
      chunks := z.chunks ++ emits.map (fun e => ⟨e.2, none, e.1⟩),
      files := z.files.set i file',
      zipAdded := z.zipAdded ++ [(file.filename, file.size.getD 0)],
      opened := z.opened ++ [i] }
    if z.chunks.length = numChunks + 1 then
      if file'.crc32Watcher ∧ file'.compressedSizeCounter then
        let hdr := z.chunks.getD numChunks ⟨[], none, 0⟩
        (.ok (), { z with currentSize := hdr.offset + hdr.buff.length + file.size.getD 0 })
      else (.error "Failed to capture yazl streams", z)
    else (.error "yazl did not write local file header", z)

/-- `Zip.getStream` (lines 167-187).  The four asserts of lines 168-172 run
before any mutation; then the output record is created and added to
`this._outputs` (lines 175-177), and the branch of lines 179-184 either
starts the output (a stub), starts the next file, or does nothing.  A
`TypeError` or assert thrown inside `_startNextFile` propagates to the
caller with the mutations made so far retained, exactly as in JavaScript.
The bounds check `offset + length <= this.size` of line 172 is evaluated
only after the two integrality asserts, so both operands are integers
there; it is modelled as the equivalent comparison of their numerators. -/
def getStream (enc : Encoder) (z : Zip) (offset length : ℚ) :
    Except String Output × Zip :=
  if ¬ sizeTruthy z.size then
    (.error "Must call `zip.init()` if file sizes not provided for all files", z)
  else if ¬ isPositiveIntegerOrZero offset then
    (.error "`offset` must be a positive integer", z)
  else if ¬ isPositiveInteger length then
    (.error "`length` must be a positive integer greater than 0", z)
  else if ¬ (offset.num + length.num ≤ (z.size.getD 0 : Int)) then
    (.error "End of chunk is beyond end of file", z)
  else
    let off := offset.num.toNat
    let len := length.num.toNat
    let output : Output := ⟨off, len, off⟩
    let z := { z with outputs := z.outputs ++ [output] }
    if off < z.currentSize then
      (.ok output, startOutput z output)
    else if z.currentFileIndex = none then
      match startNextFile enc z with
      | (.ok _, z') => (.ok output, z')
      | (.error e, z') => (.error e, z')
    else (.ok output, z)

/-!
### Range delivery, modelled from the spec

The body of `Zip._startOutput` — the routine that actually feeds bytes to an
outstanding output — is a `TODO` stub in the source (lines 225-227).  The
definitions of this section are therefore modelled from the spec rather than
from the source.
-/

/-- Modelled from the spec: a `RangeRequest` ("output") —
`{offset, length, cursor, sink}` — with `cursor` tracking how many bytes of
`[offset, offset+length)` have been delivered; `delivered` records the bytes
pushed to its sink so far.  It extends the source's output record
`{offset, length, pos}` (where `pos` plays the role of `cursor`). -/
structure RangeReq where
  offset : Nat
  length : Nat
  cursor : Nat
  delivered : List Nat
deriving DecidableEq

/-- Modelled from the spec (§4.4 delivery rule, absent from the source's
`_startOutput` stub): "whenever the producer advances and emits a byte buffer
at a known absolute offset/length, every live RangeRequest whose pending
window `[cursor, offset+length)` intersects that buffer's range receives the
intersecting slice, advancing its `cursor`".  `a` is the absolute offset of
the emitted buffer `buf`. -/
def deliverChunk (r : RangeReq) (a : Nat) (buf : List Nat) : RangeReq :=
  if max r.cursor a < min (r.offset + r.length) (a + buf.length) then
    { r with
      delivered := r.delivered ++
        ((buf.drop (max r.cursor a - a)).take
          (min (r.offset + r.length) (a + buf.length) - max r.cursor a)),
      cursor := min (r.offset + r.length) (a + buf.length) }
  else r

/-- Run the sequential producer for a single request: emit the buffers of
`cs` in order, the first at absolute position `p`, delivering each
intersecting slice to `r`. -/
def run1 (p : Nat) (r : RangeReq) : List (List Nat) → RangeReq
  | [] => r
  | c :: cs => run1 (p + c.length) (deliverChunk r p c) cs

/-- Modelled from the spec: the single sequential producer serving all
outstanding requests at once — each emitted buffer is offered to every live
request independently. -/
def runProducer (p : Nat) (outs : List RangeReq) : List (List Nat) → List RangeReq
  | [] => outs
  | c :: cs => runProducer (p + c.length) (outs.map (fun r => deliverChunk r p c)) cs

/-!
### Auxiliary definitions: validity predicates, invariants, reachability,
and concrete states used by witnesses
-/

/-- The spec's `InvalidRangeError`: the three range-precondition assert
messages of `getStream` (lines 170-172). -/
def InvalidRangeMsg (m : String) : Prop :=
  m = "`offset` must be a positive integer"
  ∨ m = "`length` must be a positive integer greater than 0"
  ∨ m = "End of chunk is beyond end of file"

instance (m : String) : Decidable (InvalidRangeMsg m) := by
  unfold InvalidRangeMsg; infer_instance

/-- A file descriptor the constructor's validation accepts: `path` and
`filename` are strings (of any length), and `size` is `null`, `undefined`,
or a non-negative integer number. -/
def descValid (d : FileDesc) : Prop :=
  (∃ s, d.path = .str s) ∧ (∃ s, d.filename = .str s)
  ∧ (d.size = .null ∨ d.size = .undefined
     ∨ ∃ q, d.size = .num q ∧ isPositiveIntegerOrZero q)

/-- The state invariant backing C4 and C5: the archive size is defined iff
all entry sizes are known and the size-calculation pass ran; the producer
index is never advanced; and at most the first entry has ever been opened. -/
def StateInv (z : Zip) : Prop :=
  (z.size.isSome ↔ ((∀ f ∈ z.files, f.size.isSome) ∧ z.calcDone = true))
  ∧ z.nextFileIndex = 0
  ∧ ((z.currentFileIndex = none ∧ z.opened = [])
     ∨ (z.currentFileIndex = some 0 ∧ (z.opened = [] ∨ z.opened = [0])))

/-- The reachable states of a `Zip` instance: those produced by the
constructor, and closed under `getStream` calls (with any arguments, whether
they succeed or throw) and successful `init` calls. -/
inductive Reachable (enc : Encoder) : Zip → Prop where
  | base (descs : List FileDesc) (z : Zip) :
      mkZip enc descs = .ok z → Reachable enc z
  | getStreamStep (z : Zip) (offset length : ℚ) :
      Reachable enc z → Reachable enc (getStream enc z offset length).2
  | initStep (statSize : String → Nat) (z z' : Zip) :
      Reachable enc z → init statSize z = .ok z' → Reachable enc z'

/-- Concrete state used to instantiate theorems with hypotheses: a planned
archive with one three-byte entry. -/
def zipOneFileState : Zip :=
  { size := some 10, files := [⟨"a", "a", some 3, false, false⟩], chunks := [],
    outputs := [], currentFileIndex := none, nextFileIndex := 0, currentSize := 0,
    zipAdded := [], calcDone := true, opened := [] }

/-- The state `new Zip([])` constructs: a planned archive with no entries
(the encoder reports the 22-byte end-of-central-directory record). -/
def zipEmptyState : Zip :=
  { size := some 22, files := [], chunks := [], outputs := [],
    currentFileIndex := none, nextFileIndex := 0, currentSize := 0,
    zipAdded := [], calcDone := true, opened := [] }

/-- The state `new Zip([{path: "a", filename: "a.txt"}])` constructs: one
entry of unknown size, layout not planned. -/
def zipUnresolvedState : Zip :=
  { size := none, files := [⟨"a", "a.txt", none, false, false⟩], chunks := [],
    outputs := [], currentFileIndex := none, nextFileIndex := 0, currentSize := 0,
    zipAdded := [], calcDone := false, opened := [] }

/-- An encoder violating the emission contract: `addReadStream` writes no
buffer at all. -/
def badEncoder : Encoder :=
  { yazlEncoder with addEmits := fun _ _ _ => [] }

/-!
### Theorems
-/

/-- The producer serves every outstanding request independently: running it
over a batch is running it over each request separately. -/
theorem runProducer_eq_map :
    ∀ (cs : List (List Nat)) (p : Nat) (outs : List RangeReq),
      runProducer p outs cs = outs.map (fun r => run1 p r cs) := by
  intro cs
  induction cs with
  | nil => intro p outs; simp [runProducer, run1]
  | cons c cs ih =>
    intro p outs
    rw [runProducer, ih, List.map_map]
    rfl

/-- Invariant computation for a single request: starting at producer position
`p` with cursor `cur = min (off+len) (max off p)`, running the producer over
chunks `cs` that cover the archive `B` from position `p` onward delivers
exactly the bytes of `B` between `cur` and `min (off+len) B.length`. -/
theorem run1_delivered (B : List Nat) (off len : Nat) :
    ∀ (cs : List (List Nat)) (p cur : Nat) (d : List Nat),
      p ≤ B.length →
      B.drop p = cs.flatten →
      cur = min (off + len) (max off p) →
      run1 p ⟨off, len, cur, d⟩ cs
        = ⟨off, len, min (off + len) (max off B.length),
           d ++ (B.drop cur).take (min (off + len) B.length - cur)⟩ := by
  intro cs
  induction cs with
  | nil =>
    intro p cur d hp hB hcur
    have hlen : B.length - p = 0 := by
      have h := congrArg List.length hB
      simpa [List.length_drop] using h
    have hpB : p = B.length := by omega
    subst hpB
    rw [run1]
    have h2 : (B.drop cur).take (min (off + len) B.length - cur) = [] := by
      rcases Nat.lt_or_ge cur B.length with h | h
      · have h0 : min (off + len) B.length - cur = 0 := by omega
        rw [h0, List.take_zero]
      · rw [List.drop_eq_nil_of_le h, List.take_nil]
    rw [h2, List.append_nil, ← hcur]
  | cons c cs ih =>
    intro p cur d hp hB hcur
    rw [List.flatten_cons] at hB
    have hlenB : B.length - p = c.length + cs.flatten.length := by
      have h := congrArg List.length hB
      simpa [List.length_drop, List.length_append] using h
    have hp' : p + c.length ≤ B.length := by omega
    have hB' : B.drop (p + c.length) = cs.flatten := by
      have h1 : B.drop (p + c.length) = (B.drop p).drop c.length := by
        rw [List.drop_drop]
      rw [h1, hB, List.drop_left]
    have hc : (B.drop p).take c.length = c := by
      rw [hB, List.take_left]
    rw [run1]
    by_cases hcase : max cur p < min (off + len) (p + c.length)
    · have hX : (c.drop (max cur p - p)).take
            (min (off + len) (p + c.length) - max cur p)
          = (B.drop cur).take (min (off + len) (p + c.length) - cur) := by
        have hmaxc : max cur p = cur := by omega
        have h2 : c.drop (cur - p) = (B.drop cur).take (c.length - (cur - p)) := by
          conv_lhs => rw [← hc]
          rw [List.drop_take, List.drop_drop]
          have hpc : p + (cur - p) = cur := by omega
          rw [hpc]
        rw [hmaxc, h2, List.take_take, inf_eq_min]
        congr 1
        omega
      have hstep : deliverChunk ⟨off, len, cur, d⟩ p c
          = ⟨off, len, min (off + len) (p + c.length),
             d ++ (B.drop cur).take (min (off + len) (p + c.length) - cur)⟩ := by
        rw [deliverChunk]
        dsimp only
        rw [if_pos hcase, hX]
      rw [hstep,
        ih (p + c.length) (min (off + len) (p + c.length))
          (d ++ (B.drop cur).take (min (off + len) (p + c.length) - cur))
          hp' hB' (by omega)]
      have hdrop : B.drop (min (off + len) (p + c.length))
          = (B.drop cur).drop (min (off + len) (p + c.length) - cur) := by
        rw [List.drop_drop]
        congr 1
        omega
      rw [hdrop, List.append_assoc, ← List.take_add]
      have h1 : cur < min (off + len) (p + c.length) := by omega
      have h2 : min (off + len) (p + c.length) ≤ min (off + len) B.length := by omega
      congr 2
      generalize hA : min (off + len) (p + c.length) = A at h1 h2 ⊢
      generalize hM : min (off + len) B.length = M at h2 ⊢
      have h3 : A - cur + (M - A) = M - cur := by omega
      rw [h3]
    · have hstep : deliverChunk ⟨off, len, cur, d⟩ p c = ⟨off, len, cur, d⟩ := by
        rw [deliverChunk]
        dsimp only
        rw [if_neg hcase]
      rw [hstep]
      exact ih (p + c.length) cur d hp' hB' (by omega)

/-- A validated entry reported as size-known carries a known size. -/
theorem validateFile_known (d : FileDesc) (e : FileEntry) (k : Bool)
    (h : validateFile d = .ok (e, k)) (hk : k = true) : e.size.isSome := by
  unfold validateFile at h
  repeat' split at h
  all_goals simp_all
  subst h
  rfl

/-- When validation reports `allFileSizesKnown`, every conformed entry has a
known size. -/
theorem validateFiles_known :
    ∀ (ds : List FileDesc) (es : List FileEntry) (known : Bool),
      validateFiles ds = .ok (es, known) → known = true →
      ∀ e ∈ es, e.size.isSome := by
  intro ds
  induction ds with
  | nil =>
    intro es known h hk e he
    simp only [validateFiles] at h
    injection h with h
    injection h with h1 h2
    subst h1
    simp at he
  | cons d ds ih =>
    intro es known h hk e he
    simp only [validateFiles, bind, Except.bind] at h
    rcases hvf : validateFile d with m | ⟨e1, k1⟩ <;> rw [hvf] at h
    · exact absurd h (by simp)
    rcases hvr : validateFiles ds with m | ⟨es', k'⟩ <;> rw [hvr] at h
    · exact absurd h (by simp)
    injection h with h
    injection h with h1 h2
    subst h1
    subst h2
    have hk12 : k1 = true ∧ k' = true := by simpa using hk
    rcases hk12 with ⟨hk1, hk2⟩
    rcases List.mem_cons.mp he with he1 | he2
    · subst he1
      exact validateFile_known d e k1 hvf hk1
    · exact ih es' k' hvr hk2 e he2

/-- A single descriptor passes validation exactly when it is `descValid`. -/
theorem validateFile_ok_iff (d : FileDesc) :
    (∃ r, validateFile d = .ok r) ↔ descValid d := by
  obtain ⟨dp, df, dsz⟩ := d
  cases dp <;> cases df <;> cases dsz <;>
    simp only [validateFile, descValid] <;>
    first
    | (constructor
       · rintro ⟨r, hr⟩
         split at hr <;> simp_all
       · intro hv
         simp_all)
    | simp_all

/-- A descriptor list passes validation exactly when every descriptor is
`descValid`. -/
theorem validateFiles_ok_iff :
    ∀ ds : List FileDesc, (∃ r, validateFiles ds = .ok r) ↔ ∀ d ∈ ds, descValid d := by
  intro ds
  induction ds with
  | nil => simp [validateFiles]
  | cons d ds ih =>
    simp only [validateFiles, bind, Except.bind]
    constructor
    · rintro ⟨r, hr⟩
      rcases hvf : validateFile d with m | ⟨e1, k1⟩ <;> rw [hvf] at hr
      · exact absurd hr (by simp)
      rcases hvr : validateFiles ds with m | ⟨es', k'⟩ <;> rw [hvr] at hr
      · exact absurd hr (by simp)
      intro d' hd'
      rcases List.mem_cons.mp hd' with h1 | h2
      · subst h1
        exact (validateFile_ok_iff d').mp ⟨_, hvf⟩
      · exact (ih.mp ⟨_, hvr⟩) d' h2
    · intro hall
      obtain ⟨⟨e1, k1⟩, h1⟩ := (validateFile_ok_iff d).mpr (hall d (by simp))
      obtain ⟨⟨es', k'⟩, h2⟩ := ih.mpr (fun d' hd' => hall d' (by simp [hd']))
      rw [h1, h2]
      exact ⟨_, rfl⟩

/-- The concrete encoder model always reports a non-zero final size (any ZIP
archive contains at least the 22-byte end-of-central-directory record). -/
theorem yazl_finalSize_ne (es : List (String × Nat)) :
    yazlEncoder.finalSize es ≠ 0 := by
  simp only [yazlEncoder]
  omega

/-- Inversion of a successful construction: validation succeeded, and the
state is the freshly initialised one, with the size computed exactly when
all sizes were known. -/
theorem mkZip_ok_cases (enc : Encoder) (ds : List FileDesc) (z : Zip)
    (h : mkZip enc ds = .ok z) :
    ∃ es known, validateFiles ds = .ok (es, known) ∧
      ((known = false ∧ z = mkZipBase es)
       ∨ (known = true
          ∧ enc.finalSize (es.map fun f => (f.filename, f.size.getD 0)) ≠ 0
          ∧ z = { mkZipBase es with
                  size := some (enc.finalSize (es.map fun f => (f.filename, f.size.getD 0))),
                  calcDone := true })) := by
  simp only [mkZip, bind, Except.bind] at h
  rcases hv : validateFiles ds with m | ⟨es, known⟩ <;> rw [hv] at h
  · exact absurd h (by simp)
  refine ⟨es, known, rfl, ?_⟩
  cases known with
  | false =>
    simp only [Bool.false_eq_true, if_false] at h
    injection h with h
    exact Or.inl ⟨rfl, h.symm⟩
  | true =>
    simp only [if_true] at h
    simp only [calculateZipSize] at h
    split at h
    · injection h with h
      refine Or.inr ⟨rfl, by assumption, ?_⟩
      exact h.symm
    · exact absurd h (by simp)

/-- Setting an index of a list to an entry with the same size leaves the
size view of the list unchanged. -/
theorem map_size_set :
    ∀ (l : List FileEntry) (i : Nat) (file file' : FileEntry),
      l.get? i = some file → file'.size = file.size →
      (l.set i file').map (fun f => f.size) = l.map (fun f => f.size) := by
  intro l
  induction l with
  | nil => intro i file file' hget _; simp at hget
  | cons a t ih =>
    intro i file file' hget hsz
    cases i with
    | zero =>
      simp only [List.get?] at hget
      injection hget with hget
      subst hget
      simp [List.set, hsz]
    | succ n =>
      simp only [List.get?] at hget
      simp [List.set, ih n file file' hget hsz]

/-- A successful `init` call leaves the state unchanged. -/
theorem init_ok_eq (statSize : String → Nat) (z z' : Zip)
    (h : init statSize z = .ok z') : z' = z := by
  unfold init at h
  split at h
  · injection h with h
    exact h.symm
  · exact absurd h (by simp)

/-- `_startNextFile` preserves the state invariant when called with no file
currently streaming (the only way `getStream` calls it). -/
theorem startNextFile_inv (enc : Encoder) (z : Zip) (hInv : StateInv z)
    (hcur : z.currentFileIndex = none) : StateInv (startNextFile enc z).2 := by
  obtain ⟨hiff, hnext, hdisj⟩ := hInv
  have hop : z.opened = [] := by
    rcases hdisj with ⟨_, h⟩ | ⟨h, _⟩
    · exact h
    · rw [hcur] at h; exact absurd h (by simp)
  rcases hget : z.files.get? z.nextFileIndex with _ | file
  · simp only [startNextFile, hget]
    exact ⟨hiff, hnext, Or.inr ⟨by rw [hnext], Or.inl hop⟩⟩
  · simp only [startNextFile, hget]
    have hmap := map_size_set z.files z.nextFileIndex file
      { file with crc32Watcher := decide (1 ≤ enc.pipeCount),
                  compressedSizeCounter := decide (4 ≤ enc.pipeCount) }
      hget rfl
    have hsizes : (∀ f ∈ z.files.set z.nextFileIndex
        { file with crc32Watcher := decide (1 ≤ enc.pipeCount),
                    compressedSizeCounter := decide (4 ≤ enc.pipeCount) },
          f.size.isSome) ↔ (∀ f ∈ z.files, f.size.isSome) := by
      rw [← List.forall_mem_map (f := fun f : FileEntry => f.size)
            (P := fun s => s.isSome),
          ← List.forall_mem_map (f := fun f : FileEntry => f.size)
            (P := fun s => s.isSome), hmap]
    split
    · split
      · exact ⟨by rw [hsizes]; exact hiff, hnext,
          Or.inr ⟨by simp [hnext], Or.inr (by simp [hop, hnext])⟩⟩
      · exact ⟨by rw [hsizes]; exact hiff, hnext,
          Or.inr ⟨by simp [hnext], Or.inr (by simp [hop, hnext])⟩⟩
    · exact ⟨by rw [hsizes]; exact hiff, hnext,
        Or.inr ⟨by simp [hnext], Or.inr (by simp [hop, hnext])⟩⟩

/-- `getStream` preserves the state invariant, whatever its arguments and
outcome. -/
theorem getStream_inv (enc : Encoder) (z : Zip) (o l : ℚ) (hInv : StateInv z) :
    StateInv (getStream enc z o l).2 := by
  simp only [getStream]
  split
  · exact hInv
  split
  · exact hInv
  split
  · exact hInv
  split
  · exact hInv
  split
  · exact hInv
  split
  · rename_i hnone
    have h1 : StateInv { z with outputs := z.outputs ++ [⟨o.num.toNat, l.num.toNat, o.num.toNat⟩] } :=
      hInv
    have h2 := startNextFile_inv enc _ h1 hnone
    split
    · rename_i heq
      rw [heq] at h2
      exact h2
    · rename_i heq
      rw [heq] at h2
      exact h2
  · exact hInv

/-- Constructor-produced states satisfy the invariant. -/
theorem mkZip_inv (enc : Encoder) (ds : List FileDesc) (z : Zip)
    (h : mkZip enc ds = .ok z) : StateInv z := by
  obtain ⟨es, known, hv, hcase⟩ := mkZip_ok_cases enc ds z h
  rcases hcase with ⟨_, hz⟩ | ⟨hk, _, hz⟩ <;> subst hz
  · exact ⟨by simp [mkZipBase], rfl, Or.inl ⟨rfl, rfl⟩⟩
  · refine ⟨?_, rfl, Or.inl ⟨rfl, rfl⟩⟩
    simp only [mkZipBase, Option.isSome_some, true_iff]
    exact ⟨validateFiles_known ds es known hv hk, trivial⟩

/-- Every reachable state satisfies the invariant. -/
theorem reachable_inv (enc : Encoder) (z : Zip) (h : Reachable enc z) :
    StateInv z := by
  induction h with
  | base ds z hz => exact mkZip_inv enc ds z hz
  | getStreamStep z o l _ ih => exact getStream_inv enc z o l ih
  | initStep statSize z z' _ hok ih => rw [init_ok_eq statSize z z' hok]; exact ih

/-- With the well-behaved encoder, `_startNextFile` succeeds whenever the
entry to process exists. -/
theorem startNextFile_yazl_ok (z : Zip) (file : FileEntry)
    (hget : z.files.get? z.nextFileIndex = some file) :
    ∃ z', startNextFile yazlEncoder z = (.ok (), z') := by
  simp only [startNextFile, hget]
  rw [if_pos (by simp [yazlEncoder])]
  rw [if_pos (by simp [yazlEncoder])]
  exact ⟨_, rfl⟩

/-- For integer-valued rationals, the bounds comparison of `getStream` is
the numerator comparison. -/
theorem int_add_le_iff (o l : ℚ) (s : Nat) (ho : o.den = 1) (hl : l.den = 1) :
    (o + l ≤ (s : ℚ)) ↔ o.num + l.num ≤ (s : Int) := by
  have ho' : (o.num : ℚ) = o := (Rat.den_eq_one_iff o).mp ho
  have hl' : (l.num : ℚ) = l := (Rat.den_eq_one_iff l).mp hl
  rw [← ho', ← hl']
  norm_cast

/-- A successful `getStream` call returns the output record
`{offset, length, pos: offset}` built from its validated arguments
(line 176 of the source). -/
theorem getStream_ok_shape (enc : Encoder) (z : Zip) (o l : ℚ) (out : Output)
    (hok : (getStream enc z o l).1 = .ok out) :
    out = ⟨o.num.toNat, l.num.toNat, o.num.toNat⟩ := by
  simp only [getStream] at hok
  repeat' split at hok
  all_goals simp_all

/-- C1: for every archive whose layout planning has completed and every valid
request accepted by `getStream`, the byte sequence the spec-modelled delivery
rule (the `_startOutput` body is a TODO stub in the source) feeds to that
request's stream is exactly the slice `[offset, offset+length)` of the full
archive a sequential ZIP writer would produce — `cs` being the writer's
emitted buffers in order and `cs.flatten` the reference full build — no
matter how many other concurrent requests `outs` holds or in what order they
were opened. -/
theorem c1_openRange_delivers_slice
    (enc : Encoder) (z : Zip) (offset length : ℚ) (out : Output)
    (hok : (getStream enc z offset length).1 = .ok out)
    (cs : List (List Nat)) (outs : List RangeReq)
    (hbound : out.offset + out.length ≤ cs.flatten.length)
    (hmem : (⟨out.offset, out.length, out.pos, []⟩ : RangeReq) ∈ outs) :
    (⟨out.offset, out.length, out.offset + out.length,
        (cs.flatten.drop out.offset).take out.length⟩ : RangeReq)
      ∈ runProducer 0 outs cs := by
  have hshape := getStream_ok_shape enc z offset length out hok
  have hpos : out.pos = out.offset := by rw [hshape]
  rw [runProducer_eq_map]
  have h1 : run1 0 (⟨out.offset, out.length, out.pos, []⟩ : RangeReq) cs
      = ⟨out.offset, out.length, out.offset + out.length,
         (cs.flatten.drop out.offset).take out.length⟩ := by
    rw [hpos]
    rw [run1_delivered cs.flatten out.offset out.length cs 0 out.offset []
      (Nat.zero_le _) (by rw [List.drop_zero]) (by omega)]
    simp only [RangeReq.mk.injEq, List.nil_append, true_and]
    constructor
    · omega
    · congr 1
      omega
  exact h1 ▸ List.mem_map_of_mem _ hmem

/-- Witness for C1 at a concrete input: the request `[2, 5)` of a six-byte
build, outstanding next to a second request, receives bytes `[30, 40, 50]`. -/
theorem c1_openRange_delivers_slice_witness :
    (getStream yazlEncoder zipOneFileState 2 3).1 = .ok ⟨2, 3, 2⟩
    ∧ (2 : Nat) + 3 ≤ ([[10, 20], [30, 40, 50], [60]] : List (List Nat)).flatten.length
    ∧ (⟨2, 3, 2, []⟩ : RangeReq) ∈ [(⟨0, 2, 0, []⟩ : RangeReq), ⟨2, 3, 2, []⟩]
    ∧ (⟨2, 3, 5, [30, 40, 50]⟩ : RangeReq)
        ∈ runProducer 0 [(⟨0, 2, 0, []⟩ : RangeReq), ⟨2, 3, 2, []⟩]
            [[10, 20], [30, 40, 50], [60]] :=
  ⟨by decide, by decide, by decide,
    c1_openRange_delivers_slice yazlEncoder zipOneFileState 2 3 ⟨2, 3, 2⟩ (by decide)
      [[10, 20], [30, 40, 50], [60]] [⟨0, 2, 0, []⟩, ⟨2, 3, 2, []⟩]
      (by decide) (by decide)⟩

/-- Whatever error `_startNextFile` throws — the `TypeError` of the missing
entry, the header-emission assert, or the stream-capture assert — its
message is never one of the three `InvalidRangeError` messages. -/
theorem startNextFile_error_not_range (enc : Encoder) (z : Zip) (m : String)
    (h : (startNextFile enc z).1 = .error m) : ¬ InvalidRangeMsg m := by
  simp only [startNextFile] at h
  split at h
  · simp only [Except.error.injEq] at h
    subst h
    decide
  · split at h
    · split at h
      · simp at h
      · simp only [Except.error.injEq] at h
        subst h
        decide
    · simp only [Except.error.injEq] at h
      subst h
      decide

/-- C2 (amended): for EVERY planned archive, `getStream` fails with an
`InvalidRangeError` (one of the three range-assert messages) iff the offset
is not a non-negative integer, the length is not a positive integer, or
`offset + length` exceeds the archive size — in particular
`getStream(totalSize, 1)` always fails so; and on an archive with at least
one entry every in-bounds request with positive length is accepted (returns
a stream).  On an archive with zero entries the in-bounds case instead
throws a `TypeError`, see the counterexample. -/
theorem c2_invalid_range_iff (z : Zip) (s : Nat) (hs : z.size = some s) (hs0 : s ≠ 0)
    (offset length : ℚ) :
    ((∃ m, (getStream yazlEncoder z offset length).1 = .error m ∧ InvalidRangeMsg m)
      ↔ ¬(isPositiveIntegerOrZero offset ∧ isPositiveInteger length
            ∧ offset + length ≤ (s : ℚ)))
    ∧ (z.files ≠ [] → z.nextFileIndex = 0 →
        (isPositiveIntegerOrZero offset ∧ isPositiveInteger length
          ∧ offset + length ≤ (s : ℚ))
        → ∃ out, (getStream yazlEncoder z offset length).1 = .ok out) := by
  have hsz : sizeTruthy z.size := by simp [sizeTruthy, hs, hs0]
  have hgd : z.size.getD 0 = s := by rw [hs]; rfl
  by_cases h2 : isPositiveIntegerOrZero offset
  case neg =>
    have hres : (getStream yazlEncoder z offset length).1
        = .error "`offset` must be a positive integer" := by
      simp only [getStream]
      rw [if_neg (not_not_intro hsz), if_pos h2]
    refine ⟨?_, fun _ _ hv => absurd hv.1 h2⟩
    rw [hres]
    constructor
    · intro _; exact fun hc => h2 hc.1
    · intro _; exact ⟨_, rfl, Or.inl rfl⟩
  case pos =>
  by_cases h3 : isPositiveInteger length
  case neg =>
    have hres : (getStream yazlEncoder z offset length).1
        = .error "`length` must be a positive integer greater than 0" := by
      simp only [getStream]
      rw [if_neg (not_not_intro hsz), if_neg (not_not_intro h2), if_pos h3]
    refine ⟨?_, fun _ _ hv => absurd hv.2.1 h3⟩
    rw [hres]
    constructor
    · intro _; exact fun hc => h3 hc.2.1
    · intro _; exact ⟨_, rfl, Or.inr (Or.inl rfl)⟩
  case pos =>
  have hb := int_add_le_iff offset length s h2.1 h3.1
  by_cases h4 : offset.num + length.num ≤ (s : Int)
  case neg =>
    have hres : (getStream yazlEncoder z offset length).1
        = .error "End of chunk is beyond end of file" := by
      simp only [getStream]
      rw [if_neg (not_not_intro hsz), if_neg (not_not_intro h2),
        if_neg (not_not_intro h3), if_pos (by rw [hgd]; exact h4)]
    refine ⟨?_, fun _ _ hv => absurd (hb.mp hv.2.2) h4⟩
    rw [hres]
    constructor
    · intro _; exact fun hc => h4 (hb.mp hc.2.2)
    · intro _; exact ⟨_, rfl, Or.inr (Or.inr rfl)⟩
  case pos =>
  -- all three range checks pass: the result is either an accepted stream or
  -- a non-range error from `_startNextFile`, so it is never an
  -- `InvalidRangeError`; and with at least one entry it is accepted.
  have hnorange : ∀ m, (getStream yazlEncoder z offset length).1 = .error m
      → ¬ InvalidRangeMsg m := by
    simp only [getStream]
    rw [if_neg (not_not_intro hsz), if_neg (not_not_intro h2),
      if_neg (not_not_intro h3), if_neg (not_not_intro (by rw [hgd]; exact h4))]
    intro m hm
    split at hm
    · simp at hm
    split at hm
    · rename_i heq
      split at hm
      · simp at hm
      · rename_i e z' hsnf
        simp only [Except.error.injEq] at hm
        subst hm
        exact startNextFile_error_not_range yazlEncoder _ _
          (by rw [hsnf])
    · simp at hm
  refine ⟨?_, ?_⟩
  · constructor
    · rintro ⟨m, hm, hrange⟩
      exact absurd hrange (hnorange m hm)
    · intro hcon
      exact absurd ⟨h2, h3, hb.mpr h4⟩ hcon
  · intro hne hnext _
    simp only [getStream]
    rw [if_neg (not_not_intro hsz), if_neg (not_not_intro h2),
      if_neg (not_not_intro h3), if_neg (not_not_intro (by rw [hgd]; exact h4))]
    obtain ⟨a, t, hft⟩ : ∃ a t, z.files = a :: t := by
      cases hzf : z.files with
      | nil => exact absurd hzf hne
      | cons a t => exact ⟨a, t, rfl⟩
    have hget0 : z.files.get? z.nextFileIndex = some a := by
      rw [hnext, hft]; rfl
    split
    · exact ⟨_, rfl⟩
    split
    · obtain ⟨z', hz'⟩ := startNextFile_yazl_ok
        { z with outputs := z.outputs ++ [⟨offset.num.toNat, length.num.toNat, offset.num.toNat⟩] }
        a hget0
      rw [hz']
      exact ⟨_, rfl⟩
    · exact ⟨_, rfl⟩

/-- Witness for C2 at a concrete planned one-entry archive and the request
`(0, 1)`. -/
theorem c2_invalid_range_iff_witness :
    ((∃ m, (getStream yazlEncoder zipOneFileState 0 1).1 = .error m ∧ InvalidRangeMsg m)
      ↔ ¬(isPositiveIntegerOrZero (0 : ℚ) ∧ isPositiveInteger (1 : ℚ)
            ∧ (0 : ℚ) + 1 ≤ ((10 : Nat) : ℚ)))
    ∧ (zipOneFileState.files ≠ [] → zipOneFileState.nextFileIndex = 0 →
        (isPositiveIntegerOrZero (0 : ℚ) ∧ isPositiveInteger (1 : ℚ)
          ∧ (0 : ℚ) + 1 ≤ ((10 : Nat) : ℚ))
        → ∃ out, (getStream yazlEncoder zipOneFileState 0 1).1 = .ok out) :=
  c2_invalid_range_iff zipOneFileState 10 rfl (by decide) 0 1

/-- C2 counterexample: on the planned EMPTY archive (`new Zip([])`, total
size 22), the in-bounds request `(0, 1)` is not accepted — it throws a
`TypeError` (from the unfinished all-files-written branch of
`_startNextFile`), which is not an `InvalidRangeError` — refuting "every
in-bounds request with positive length is accepted". -/
theorem c2_counterexample :
    mkZip yazlEncoder [] = .ok zipEmptyState
    ∧ isPositiveIntegerOrZero (0 : ℚ)
    ∧ isPositiveInteger (1 : ℚ)
    ∧ (0 : ℚ) + 1 ≤ ((22 : Nat) : ℚ)
    ∧ (getStream yazlEncoder zipEmptyState 0 1).1
        = .error "TypeError: Cannot read properties of undefined"
    ∧ ¬ InvalidRangeMsg "TypeError: Cannot read properties of undefined" :=
  ⟨by decide, by decide, by decide, by norm_num, by decide, by decide⟩

/-- C3 (code bug): `init` on an archive with an unknown entry size throws a
`TypeError` — the method iterates `this.files` but the class only ever
defines `this._files` — so it neither stats the entry nor resolves its size,
even though the size oracle knows the path. -/
theorem c3_init_type_error :
    mkZip yazlEncoder [⟨.str "a", .str "a.txt", .null⟩] = .ok zipUnresolvedState
    ∧ init (fun _ => 5) zipUnresolvedState
        = .error "TypeError: this.files is not iterable"
    ∧ zipUnresolvedState.files.map (fun f => f.size) = [none] :=
  ⟨by decide, by decide, by decide⟩

/-- C4: in every reachable state, the trace of entries whose data streams
have been opened is an initial segment of the catalog in order (`range`),
with at most one entry ever streaming and that entry being the first. -/
theorem c4_entries_opened_in_order (enc : Encoder) (z : Zip) (h : Reachable enc z) :
    z.opened = List.range z.opened.length
    ∧ z.opened.length ≤ 1
    ∧ (∀ j, z.currentFileIndex = some j → j = 0) := by
  obtain ⟨_, _, hdisj⟩ := reachable_inv enc z h
  rcases hdisj with ⟨hc, ho⟩ | ⟨hc, ho⟩
  · rw [ho]
    exact ⟨rfl, by simp, fun j hj => absurd (hc ▸ hj) (by simp)⟩
  · rcases ho with ho | ho <;> rw [ho]
    · refine ⟨rfl, by simp, fun j hj => ?_⟩
      rw [hc] at hj
      injection hj with hj
      exact hj.symm
    · refine ⟨rfl, by simp, fun j hj => ?_⟩
      rw [hc] at hj
      injection hj with hj
      exact hj.symm

/-- Witness for C4 after one `getStream` step on the empty archive. -/
theorem c4_entries_opened_in_order_witness :
    (getStream yazlEncoder zipEmptyState 0 1).2.opened
        = List.range (getStream yazlEncoder zipEmptyState 0 1).2.opened.length
    ∧ (getStream yazlEncoder zipEmptyState 0 1).2.opened.length ≤ 1
    ∧ (∀ j, (getStream yazlEncoder zipEmptyState 0 1).2.currentFileIndex = some j → j = 0) :=
  c4_entries_opened_in_order yazlEncoder _
    (Reachable.getStreamStep zipEmptyState 0 1
      (Reachable.base [] zipEmptyState (by decide)))

/-- C5: in every reachable state, the archive size is defined iff every
entry's size is known and the size-calculation pass has completed. -/
theorem c5_size_defined_iff (enc : Encoder) (z : Zip) (h : Reachable enc z) :
    z.size.isSome ↔ ((∀ f ∈ z.files, f.size.isSome) ∧ z.calcDone = true) :=
  (reachable_inv enc z h).1

/-- Witness for C5 at the constructor-produced empty archive. -/
theorem c5_size_defined_iff_witness :
    zipEmptyState.size.isSome
      ↔ ((∀ f ∈ zipEmptyState.files, f.size.isSome) ∧ zipEmptyState.calcDone = true) :=
  c5_size_defined_iff yazlEncoder zipEmptyState
    (Reachable.base [] zipEmptyState (by decide))

/-- C6 counterexample: the constructor ACCEPTS a descriptor whose source
path and archive name are both the empty string — it checks only
string-ness, not non-emptiness — refuting "rejects any descriptor whose
source path or archive name is not a non-empty string". -/
theorem c6_counterexample :
    (mkZip yazlEncoder [⟨.str "", .str "", .num 0⟩]).isOk = true
    ∧ (⟨.str "", .str "", .num 0⟩ : FileDesc).path = .str "" :=
  ⟨by decide, by decide⟩

/-- C6 (amended): construction succeeds exactly when every descriptor has a
string `path`, a string `filename` (empty strings included), and a size that
is omitted (`null`/`undefined`) or a non-negative integer. -/
theorem c6_validation_iff (ds : List FileDesc) :
    (∃ z, mkZip yazlEncoder ds = .ok z) ↔ ∀ d ∈ ds, descValid d := by
  rw [← validateFiles_ok_iff]
  constructor
  · rintro ⟨z, hz⟩
    simp only [mkZip, bind, Except.bind] at hz
    rcases hv : validateFiles ds with m | r <;> rw [hv] at hz
    · exact absurd hz (by simp)
    · exact ⟨r, rfl⟩
  · rintro ⟨⟨es, known⟩, hv⟩
    simp only [mkZip, bind, Except.bind]
    rw [hv]
    cases known with
    | false => exact ⟨mkZipBase es, by simp⟩
    | true =>
      simp only [if_true, calculateZipSize]
      rw [if_pos (yazl_finalSize_ne _)]
      exact ⟨_, rfl⟩

/-- C7: when the entry to process exists but the external encoder does not
emit exactly one local-file-header buffer for it, `_startNextFile` fails
with the `LayoutComputationError` assert rather than proceeding. -/
theorem c7_header_emission_contract (enc : Encoder) (z : Zip) (file : FileEntry)
    (hget : z.files.get? z.nextFileIndex = some file)
    (hbad : (enc.addEmits z.zipAdded file.filename (file.size.getD 0)).length ≠ 1) :
    (startNextFile enc z).1 = .error "yazl did not write local file header" := by
  simp only [startNextFile, hget]
  rw [if_neg ?hc]
  case hc =>
    intro hc
    rw [List.length_append, List.length_map] at hc
    exact hbad (by omega)

/-- Witness for C7 with an encoder that emits no buffer at all. -/
theorem c7_header_emission_contract_witness :
    zipOneFileState.files.get? zipOneFileState.nextFileIndex
        = some ⟨"a", "a", some 3, false, false⟩
    ∧ (badEncoder.addEmits zipOneFileState.zipAdded "a" ((some 3 : Option Nat).getD 0)).length ≠ 1
    ∧ (startNextFile badEncoder zipOneFileState).1
        = .error "yazl did not write local file header" :=
  ⟨by decide, by decide,
    c7_header_emission_contract badEncoder zipOneFileState ⟨"a", "a", some 3, false, false⟩
      (by decide) (by decide)⟩

/-- C8: `init` is idempotent — calling it a second time on the state
produced by a first call gives the same result (same entry sizes, same
layout and total size) as calling it once.  When the size is already
computed, a further call is a no-op. -/
theorem c8_init_idempotent (statSize : String → Nat) (z : Zip) :
    (init statSize z).bind (init statSize) = init statSize z := by
  by_cases h : sizeTruthy z.size <;> simp [init, h, Except.bind]

/-- C9: a `getStream` call that fails any of its precondition asserts (size
not computed, bad offset, bad length, or out-of-bounds end) throws and
leaves the state unchanged: no output is registered and no file processing
is started. -/
theorem c9_failed_getStream_state_unchanged (enc : Encoder) (z : Zip)
    (offset length : ℚ)
    (h : ¬ sizeTruthy z.size ∨ ¬ isPositiveIntegerOrZero offset
         ∨ ¬ isPositiveInteger length
         ∨ ¬ (offset.num + length.num ≤ (z.size.getD 0 : Int))) :
    (getStream enc z offset length).2 = z
    ∧ ∃ m, (getStream enc z offset length).1 = .error m := by
  simp only [getStream]
  by_cases h1 : sizeTruthy z.size
  case neg =>
    rw [if_pos h1]
    exact ⟨rfl, _, rfl⟩
  case pos =>
    rw [if_neg (not_not_intro h1)]
    by_cases h2 : isPositiveIntegerOrZero offset
    case neg =>
      rw [if_pos h2]
      exact ⟨rfl, _, rfl⟩
    case pos =>
      rw [if_neg (not_not_intro h2)]
      by_cases h3 : isPositiveInteger length
      case neg =>
        rw [if_pos h3]
        exact ⟨rfl, _, rfl⟩
      case pos =>
        rw [if_neg (not_not_intro h3)]
        by_cases h4 : offset.num + length.num ≤ (z.size.getD 0 : Int)
        case neg =>
          rw [if_pos h4]
          exact ⟨rfl, _, rfl⟩
        case pos =>
          rcases h with h | h | h | h <;> contradiction

/-- Witness for C9: a negative offset is rejected with the state intact. -/
theorem c9_failed_getStream_state_unchanged_witness :
    (getStream yazlEncoder zipOneFileState (-1) 1).2 = zipOneFileState
    ∧ ∃ m, (getStream yazlEncoder zipOneFileState (-1) 1).1 = .error m :=
  c9_failed_getStream_state_unchanged yazlEncoder zipOneFileState (-1) 1
    (Or.inr (Or.inl (by decide)))

/-- C10: a descriptor with declared size exactly 0 passes validation, and
its entry is included in the catalog and in the layout size computation like
any other entry. -/
theorem c10_zero_size_accepted (p f : String) :
    ∃ z, mkZip yazlEncoder [⟨.str p, .str f, .num 0⟩] = .ok z
      ∧ z.files = [⟨p, f, some 0, false, false⟩]
      ∧ z.size = some (yazlEncoder.finalSize [(f, 0)])
      ∧ z.calcDone = true := by
  have h1 : validateFiles [⟨.str p, .str f, .num 0⟩]
      = .ok ([⟨p, f, some 0, false, false⟩], true) := by
    simp [validateFiles, validateFile, bind, Except.bind, isPositiveIntegerOrZero]
  simp only [mkZip, bind, Except.bind]
  rw [h1]
  simp only [if_true, calculateZipSize]
  rw [if_pos (yazl_finalSize_ne _)]
  exact ⟨_, rfl, rfl, rfl, rfl⟩

end ZipRandomAccess
